import Mathlib

/-!
Verification development for the Angular CLI configuration module
(packages/angular/cli/utilities/config.ts).

The TypeScript source is shallowly embedded: JSON documents become an
inductive value type, the process environment and file system become an
explicit state record, and each exported function of the module becomes an
executable Lean definition mirroring the source's control flow.  External
collaborators that are not part of the given source (the relaxed JSON
parser, the devkit workspace reader, the find-up helper) are modelled from
the specification, as marked in their doc comments.
-/

set_option maxRecDepth 10000

namespace AngularConfig

/-- JSON values.  Numbers are modelled as integers: every numeric literal
appearing in the configuration logic under study is integral, and no
arithmetic is performed on them. -/
inductive JsonValue where
  | null
  | bool (b : Bool)
  | num (n : Int)
  | str (s : String)
  | arr (xs : List JsonValue)
  | obj (o : List (String × JsonValue))

/-- First-match lookup in an association list, mirroring JavaScript object
property access (object keys are unique, so first match is the match). -/
def lookupEntry {α : Type} : List (String × α) → String → Option α
  | [], _ => none
  | (k, v) :: rest, key => if k = key then some v else lookupEntry rest key

/-- JavaScript property assignment `o[k] = v`: replace the value in place if
the key exists (key order is preserved), otherwise append the new entry. -/
def setEntry {α : Type} : List (String × α) → String → α → List (String × α)
  | [], k, v => [(k, v)]
  | (k', v') :: rest, k, v =>
    if k' = k then (k', v) :: rest else (k', v') :: setEntry rest k v

theorem lookupEntry_setEntry {α : Type} (l : List (String × α)) (k k' : String) (v : α) :
    lookupEntry (setEntry l k v) k' = if k' = k then some v else lookupEntry l k' := by
  induction l with
  | nil =>
    by_cases h : k' = k
    · simp [setEntry, lookupEntry, h]
    · simp [setEntry, lookupEntry, h, Ne.symm h]
  | cons hd tl ih =>
    obtain ⟨k0, v0⟩ := hd
    by_cases h0 : k0 = k
    · subst h0
      by_cases h : k' = k0
      · simp [setEntry, lookupEntry, h]
      · simp [setEntry, lookupEntry, h, Ne.symm h]
    · by_cases h : k0 = k'
      · have hk : ¬ k' = k := fun hh => h0 (h.trans hh)
        simp [setEntry, lookupEntry, h0, h, hk]
      · simp [setEntry, lookupEntry, h0, h, ih]

/-! ## Path model

The source uses Node's posix `path` module: `resolve`, `relative`, `join`,
`dirname`, `isAbsolute`.  Paths are strings; we model the operations by
splitting on the separator, normalising `.`/`..`/empty segments the way
Node does, and joining back.  All definitions are structural so that
concrete instances evaluate inside the kernel. -/

/-- JavaScript `String.prototype.startsWith`, on character lists. -/
def jsStartsWith (s pre : String) : Bool :=
  pre.data.isPrefixOf s.data

/-- Node `path.isAbsolute` (posix): the path begins with a separator. -/
def jsIsAbsolute (p : String) : Bool :=
  jsStartsWith p "/"

/-- Split a path on the posix separator (structural helper). -/
def splitPathAux : List Char → List Char → List String
  | [], acc => [String.mk acc.reverse]
  | c :: cs, acc =>
    if c = '/' then String.mk acc.reverse :: splitPathAux cs []
    else splitPathAux cs (c :: acc)

/-- Split a path string into raw segments on the separator. -/
def splitPath (p : String) : List String :=
  splitPathAux p.data []

/-- Node path normalisation for a rooted path: drops empty and `.` segments
and makes `..` pop the previous segment (dropped when already at the root). -/
def normalizeSegs (segs : List String) : List String :=
  segs.foldl
    (fun acc s =>
      if s = "" then acc
      else if s = "." then acc
      else if s = ".." then acc.dropLast
      else acc ++ [s]) []

/-- Node `path.resolve`'s gathering pass: process the parts left to right —
an absolute part restarts the accumulated path (this is equivalent to
Node's right-to-left scan that stops at the first absolute part); if no
part is absolute, the current working directory seeds the path. -/
def rawResolve (cwd : String) (parts : List String) : List String :=
  parts.foldl
    (fun acc p => if jsIsAbsolute p then splitPath p else acc ++ splitPath p)
    (splitPath cwd)

/-- Node `path.resolve(cwd, ...parts)` as a normalised absolute segment
list (the working directory is assumed absolute, as `process.cwd()` is). -/
def resolveSegs (cwd : String) (parts : List String) : List String :=
  normalizeSegs (rawResolve cwd parts)

/-- Join segments with the posix separator. -/
def joinSegs : List String → String
  | [] => ""
  | [s] => s
  | s :: rest => s ++ "/" ++ joinSegs rest

/-- Render a normalised absolute segment list as a path string. -/
def joinAbsolute (segs : List String) : String :=
  "/" ++ joinSegs segs

/-- Length of the common prefix of two segment lists. -/
def commonPrefixLen : List String → List String → Nat
  | a :: as, b :: bs => if a = b then commonPrefixLen as bs + 1 else 0
  | _, _ => 0

/-- Node `path.relative` on two resolved absolute segment lists: climb out
of the non-shared part of `f` with `..` segments, then descend into the
non-shared part of `t`. -/
def relSegs (f t : List String) : List String :=
  List.replicate (f.length - commonPrefixLen f t) ".." ++ t.drop (commonPrefixLen f t)

/-- Node `path.join(a, b)` for the separator-clean inputs used by the
source (home directories, fixed file names): plain concatenation with a
separator.  Node additionally normalises the joined string, which is the
identity on such inputs. -/
def pathJoin2 (a b : String) : String := a ++ "/" ++ b

/-- Node `path.join(a, b, c)`, same remark as `pathJoin2`. -/
def pathJoin3 (a b c : String) : String := a ++ "/" ++ b ++ "/" ++ c

/-- Node `path.dirname` (posix): strip trailing separators, then drop the
final segment; `.` for separator-free inputs, `/` when nothing remains. -/
def nodeDirname (p : String) : String :=
  if p.data.contains '/' then
    let segs := ((splitPath p).reverse.dropWhile (· = "")).reverse
    let init := segs.dropLast
    if init.all (· = "") then "/" else joinSegs init
  else "."

/-! ## Process and file-system state

The source reads the environment (`os.homedir()`, `process.env`,
`process.cwd()`, `__dirname`) and the file system (`existsSync`,
`readFileSync`, `writeFileSync`).  File contents are represented by their
parse outcome.  Modelled from the spec: the external collaborator
`parseRelaxedJson(text) -> JsonValue | ParseError` (spec section 6); a
`ParseError` outcome is the `malformed` constructor. -/

/-- A file's content, represented by its relaxed-JSON parse outcome. -/
inductive FileContent where
  | json (v : JsonValue)
  | malformed

/-- The ambient process state the module consults.  `homedir = ""` models
`os.homedir()` yielding nothing (the source tests it with JavaScript
truthiness). -/
structure SystemEnv where
  homedir : String
  xdgConfigHome : Option String
  cwd : String
  moduleDir : String
  files : List (String × FileContent)

/-- `readFileSync` composed with the parse step: the stored content of a
path, or `none` when no file exists there. -/
def readFile (env : SystemEnv) (p : String) : Option FileContent :=
  lookupEntry env.files p

/-- `fs.existsSync`. -/
def existsSync (env : SystemEnv) (p : String) : Bool :=
  (readFile env p).isSome

/-- `fs.writeFileSync`: store content at a path. -/
def writeFile (env : SystemEnv) (p : String) (c : FileContent) : SystemEnv :=
  { env with files := setEntry env.files p c }

/-! ## Workspace data model -/

/-- A project of the workspace document: `root` is a path relative to the
workspace base directory, `extensions` holds the project's extension
fields (including `cli` and `schematics`). -/
structure ProjectDefinition where
  root : String
  extensions : List (String × JsonValue)

/-- The `AngularWorkspace` class of the source.  The source stores the
config file path and derives `basePath` with `path.dirname`; the model
keeps the derived `basePath`, which is the only field the functions under
study consult.  `projects` models the `ProjectDefinitionCollection`, an
insertion-ordered map from project name to project definition (names are
unique). -/
structure AngularWorkspace where
  basePath : String
  extensions : List (String × JsonValue)
  projects : List (String × ProjectDefinition)

/-! ## Source constants and path resolution (config.ts lines 34-75) -/

def configNames : List String := ["angular.json", ".angular.json"]

def globalFileName : String := ".angular-config.json"

/-- `xdgConfigHome(home, configFile?)` from the source: the
`XDG_CONFIG_HOME` environment variable when set and non-empty (JavaScript
`||` skips the empty string), otherwise `<home>/.config/angular`; the
config file name is appended when given. -/
def xdgConfigHome (env : SystemEnv) (home : String) (configFile : Option String) : String :=
  let p := match env.xdgConfigHome with
    | some s => if s = "" then pathJoin3 home ".config" "angular" else s
    | none => pathJoin3 home ".config" "angular"
  match configFile with
  | some f => pathJoin2 p f
  | none => p

/-- Modelled from the spec: `findUpward` (spec section 4.1): the helper in
find-up.ts is not part of the given source.  Starting from a directory
(given as reversed absolute segments), check each candidate name in order
at the current level; on a miss move to the parent, stopping after the
file-system root. -/
def findUpAux (env : SystemEnv) (names : List String) : List String → Option String
  | [] =>
    match names.find? (fun nm => existsSync env (joinAbsolute [nm])) with
    | some nm => some (joinAbsolute [nm])
    | none => none
  | seg :: rest =>
    let segs := (seg :: rest).reverse
    match names.find? (fun nm => existsSync env (joinAbsolute (segs ++ [nm]))) with
    | some nm => some (joinAbsolute (segs ++ [nm]))
    | none => findUpAux env names rest

/-- Modelled from the spec: `findUpward(candidateNames, startDir)`. -/
def findUp (env : SystemEnv) (names : List String) (from_ : String) : Option String :=
  findUpAux env names (resolveSegs env.cwd [from_]).reverse

/-- `projectFilePath(projectPath?)`: upward search from the explicit start
path when given (JavaScript `&&` skips an empty string), else from the
current working directory, else from the module's own directory. -/
def projectFilePath (env : SystemEnv) (projectPath : Option String) : Option String :=
  let first := match projectPath with
    | some pp => if pp = "" then none else findUp env configNames pp
    | none => none
  match first with
  | some p => some p
  | none =>
    match findUp env configNames env.cwd with
    | some p => some p
    | none => findUp env configNames env.moduleDir

/-- `globalFilePath()`: `null` without a home directory; otherwise the
XDG-style location when that file exists, else `<home>/.angular-config.json`
when that file exists, else `null`. -/
def globalFilePath (env : SystemEnv) : Option String :=
  if env.homedir = "" then none
  else if existsSync env (xdgConfigHome env env.homedir (some globalFileName)) then
    some (xdgConfigHome env env.homedir (some globalFileName))
  else if existsSync env (pathJoin2 env.homedir globalFileName) then
    some (pathJoin2 env.homedir globalFileName)
  else none

/-! ## Config store (config.ts lines 107-183) -/

/-- The two configuration scopes (`'local' | 'global'` in the source). -/
inductive Level where
  | localLevel
  | globalLevel
deriving DecidableEq

/-- The module-level `cachedWorkspaces` map: for each scope, either no
entry yet (outer `none`) or a resolved result, which may itself be the
resolved absence of a workspace (inner `none`). -/
structure CacheState where
  localCache : Option (Option AngularWorkspace)
  globalCache : Option (Option AngularWorkspace)

/-- `cachedWorkspaces.get(level)`. -/
def CacheState.get (st : CacheState) : Level → Option (Option AngularWorkspace)
  | .localLevel => st.localCache
  | .globalLevel => st.globalCache

/-- `cachedWorkspaces.set(level, value)`. -/
def CacheState.set (st : CacheState) : Level → Option AngularWorkspace → CacheState
  | .localLevel, v => { st with localCache := some v }
  | .globalLevel, v => { st with globalCache := some v }

theorem CacheState.get_set (st : CacheState) (level : Level) (v : Option AngularWorkspace) :
    (st.set level v).get level = some v := by
  cases level <;> rfl

/-- Extract a project definition from its JSON entry: the `root` field
when it is a string, remaining fields as project extensions.  Modelled
from the spec: the devkit workspace reader (spec sections 3 and 4.2) is an
external collaborator; only the fields the functions under study consult
(`root`, `extensions`) are retained. -/
def projectFromJson : JsonValue → ProjectDefinition
  | .obj o =>
    { root := match lookupEntry o "root" with
        | some (.str r) => r
        | _ => ""
      extensions := o.filter (fun kv => kv.1 != "root") }
  | _ => { root := "", extensions := [] }

/-- Build the typed workspace document from a parsed top-level object.
Modelled from the spec: the devkit reader treats top-level keys other than
the format version and `projects` as workspace extensions (spec section 3). -/
def workspaceFromJson (o : List (String × JsonValue)) (configPath : String) : AngularWorkspace :=
  { basePath := nodeDirname configPath
    extensions := o.filter (fun kv => kv.1 != "projects" && kv.1 != "version" && kv.1 != "$schema")
    projects := match lookupEntry o "projects" with
      | some (.obj ps) => ps.map (fun kv => (kv.1, projectFromJson kv.2))
      | _ => [] }

/-- Modelled from the spec: `workspaces.readWorkspace` (spec section 4.2)
reads the config file and fails when it is missing, malformed, or not a
JSON object at top level. -/
def readWorkspaceModel (env : SystemEnv) (configPath : String) : Except String AngularWorkspace :=
  match readFile env configPath with
  | some (.json (.obj o)) => .ok (workspaceFromJson o configPath)
  | some (.json _) => .error "workspace file is not a JSON object"
  | some .malformed => .error "invalid JSON"
  | none => .error "file not found"

/-- The `configPath` computation shared by `getWorkspace` and
`getWorkspaceRaw`: the project config path for the local scope, the global
config path for the global scope. -/
def configPathFor (level : Level) (env : SystemEnv) : Option String :=
  match level with
  | .localLevel => projectFilePath env none
  | .globalLevel => globalFilePath env

/-- `getWorkspace(level)`: return the cached result when the scope was
already resolved; otherwise resolve the config path for the scope (caching
and returning `null` when none is found), read the workspace (caching and
returning it on success), and surface a load error — without caching —
when the found file cannot be read as a workspace. -/
def getWorkspace (level : Level) (env : SystemEnv) (st : CacheState) :
    Except String (Option AngularWorkspace × CacheState) :=
  match st.get level with
  | some cached => .ok (cached, st)
  | none =>
    match configPathFor level env with
    | none => .ok (none, st.set level none)
    | some cp =>
      match readWorkspaceModel env cp with
      | .ok ws => .ok (some ws, st.set level (some ws))
      | .error e => .error ("Workspace config file cannot be loaded: " ++ cp ++ " " ++ e)

/-- `createGlobalSettings()`: fails without a home directory; otherwise
writes the minimal global document to `<home>/.angular-config.json` and
returns that path together with the updated file system. -/
def createGlobalSettings (env : SystemEnv) : Except String (String × SystemEnv) :=
  if env.homedir = "" then .error "No home directory found."
  else
    let globalPath := pathJoin2 env.homedir globalFileName
    .ok (globalPath, writeFile env globalPath (.json (.obj [("version", .num 1)])))

/-- The read-parse-check step of `getWorkspaceRaw`: read the resolved
file, fail on a parse error or a non-object top level, and return the
document with its path. -/
def rawReadParse (env : SystemEnv) (cp : String) :
    Except String ((Option JsonValue × Option String) × SystemEnv) :=
  match readFile env cp with
  | some (.json (.obj o)) => .ok ((some (JsonValue.obj o), some cp), env)
  | some (.json _) => .error ("Invalid JSON file: " ++ cp)
  | some .malformed => .error ("Invalid JSON file: " ++ cp)
  | none => .error ("file not found: " ++ cp)

/-- `getWorkspaceRaw(level)`: resolve the config path as `getWorkspace`
does, but return the parsed document (standing in for the lossless AST)
together with the path.  For the local scope an unresolved path yields
`[null, null]`; for the global scope it first creates the minimal global
settings file.  A found file that is malformed (the parser throws) or not
a JSON object at top level is an error.  The byte-order-mark stripping of
the source is invisible at the parse-outcome level of the model. -/
def getWorkspaceRaw (level : Level) (env : SystemEnv) :
    Except String ((Option JsonValue × Option String) × SystemEnv) :=
  match level, configPathFor level env with
  | .localLevel, none => .ok ((none, none), env)
  | .globalLevel, none =>
    match createGlobalSettings env with
    | .ok (cp, env2) => rawReadParse env2 cp
    | .error e => .error e
  | _, some cp => rawReadParse env cp

/-! ## Project selector (config.ts lines 201-261) -/

/-- The `isInside` closure of `getProjectByPath`: resolve both the project
root and the target against the workspace base directory and test that the
relative path from root to target neither starts with `..` nor is
absolute.  The ambient working directory (used by `path.resolve` when its
arguments are relative) is an explicit parameter. -/
def isInside (cwd basePath base potential : String) : Bool :=
  let absoluteBase := resolveSegs cwd [basePath, base]
  let absolutePotential := resolveSegs cwd [basePath, potential]
  let relativePotential := joinSegs (relSegs absoluteBase absolutePotential)
  !(jsStartsWith relativePotential "..") && !(jsIsAbsolute relativePotential)

/-- Stable insertion into a list sorted by descending root-string length:
an element goes before the first strictly shorter entry, after entries of
equal length (the element being inserted is the earlier-declared one). -/
def insertDesc (x : String × String) : List (String × String) → List (String × String)
  | [] => [x]
  | y :: ys => if y.1.length ≤ x.1.length then x :: y :: ys else y :: insertDesc x ys

/-- The stable sort `(a, b) => b[0].length - a[0].length` of the source:
descending by root-string length, ties keeping declaration order. -/
def sortByLenDesc : List (String × String) → List (String × String)
  | [] => []
  | x :: xs => insertDesc x (sortByLenDesc xs)

/-- The `sameRoots` filter of the source: walk the tuples with a set of
seen roots, keeping exactly the tuples whose root was already seen. -/
def dedupFilter : List (String × String) → List String → List (String × String)
  | [], _ => []
  | v :: vs, found =>
    if v.1 ∈ found then v :: dedupFilter vs found
    else dedupFilter vs (v.1 :: found)

/-- The `(root, name)` tuples of the projects whose root contains the
target location (the map-and-filter stage of `getProjectByPath`). -/
def projectTuples (ws : AngularWorkspace) (cwd location : String) : List (String × String) :=
  (ws.projects.map (fun np => (np.2.root, np.1))).filter
    (fun t => isInside cwd ws.basePath t.1 location)

/-- `getProjectByPath(workspace, location)`: keep the projects containing
the location, sort them by descending root length (stable), answer `null`
for no match, `null` when two kept projects share an identical root
string, and otherwise the first tuple's project name. -/
def getProjectByPath (ws : AngularWorkspace) (cwd location : String) : Option String :=
  match sortByLenDesc (projectTuples ws cwd location) with
  | [] => none
  | p :: ps =>
    if 1 < (p :: ps).length then
      if 0 < (dedupFilter (p :: ps) []).length then none
      else some p.2
    else some p.2

/-- `getProjectByCwd(workspace)`: the unique project when there is exactly
one; else path-based selection against the working directory (a truthy,
that is non-empty, name is returned); else a truthy string `defaultProject`
extension; else `null`. -/
def getProjectByCwd (ws : AngularWorkspace) (cwd : String) : Option String :=
  if ws.projects.length = 1 then (ws.projects.map Prod.fst).head?
  else
    match getProjectByPath ws cwd cwd with
    | some p =>
      if p = "" then
        match lookupEntry ws.extensions "defaultProject" with
        | some (.str s) => if s = "" then none else some s
        | _ => none
      else some p
    | none =>
      match lookupEntry ws.extensions "defaultProject" with
      | some (.str s) => if s = "" then none else some s
      | _ => none

/-! ## Settings resolver and legacy migrator (config.ts lines 263-413) -/

/-- The `getPackageManager` closure of `getConfiguredPackageManager`: the
`packageManager` field of a `cli` extension object when it is a truthy
(non-empty) string. -/
def getPackageManager : Option JsonValue → Option String
  | some (.obj o) =>
    (match lookupEntry o "packageManager" with
     | some (.str s) => if s = "" then none else some s
     | _ => none)
  | _ => none

/-- `workspace.projects.get(project)?.extensions['cli']`. -/
def projectCli (w : AngularWorkspace) (p : String) : Option JsonValue :=
  (lookupEntry w.projects p).bind (fun proj => lookupEntry proj.extensions "cli")

/-- `getLegacyPackageManager()`: the `packageManager` field of the legacy
`<home>/.angular-cli.json` file, when that file exists, parses to an
object, and the field is a truthy string other than the literal
`"default"`; `null` in every other case. -/
def getLegacyPackageManager (env : SystemEnv) : Option String :=
  if env.homedir = "" then none
  else
    let legacyGlobalConfigPath := pathJoin2 env.homedir ".angular-cli.json"
    match readFile env legacyGlobalConfigPath with
    | some (.json (.obj legacy)) =>
      (match lookupEntry legacy "packageManager" with
       | some (.str s) => if s = "" then none else if s = "default" then none else some s
       | _ => none)
    | _ => none

/-- `getConfiguredPackageManager()`: resolve the package manager with
override semantics — the selected project's `cli.packageManager`, else the
local workspace root's, else (when still undefined) the global document's,
falling back to the legacy reader only when neither the local nor the
global workspace document exists.  The two `getWorkspace` calls thread the
scope cache. -/
def getConfiguredPackageManager (env : SystemEnv) (st : CacheState) :
    Except String (Option String × CacheState) :=
  match getWorkspace .localLevel env st with
  | .error e => .error e
  | .ok (ws, st1) =>
    let result1 : Option String :=
      match ws with
      | some w =>
        let fromProject := match getProjectByCwd w env.cwd with
          | some p => if p = "" then none else getPackageManager (projectCli w p)
          | none => none
        (match fromProject with
         | some v => some v
         | none => getPackageManager (lookupEntry w.extensions "cli"))
      | none => none
    match result1 with
    | some v => .ok (some v, st1)
    | none =>
      match getWorkspace .globalLevel env st1 with
      | .error e => .error e
      | .ok (globalOptions, st2) =>
        let result2 : Option String :=
          match globalOptions with
          | some g => getPackageManager (lookupEntry g.extensions "cli")
          | none => none
        if ws.isNone && globalOptions.isNone then
          .ok (getLegacyPackageManager env, st2)
        else .ok (result2, st2)

/-- The `cli` object `migrateLegacyGlobalConfig` extracts from a parsed
legacy document: a truthy `packageManager` string other than `"default"`,
`defaults.schematics.collection` (when a string) renamed to
`defaultCollection`, and a boolean `warnings.versionMismatch` wrapped in a
non-empty `warnings` object. -/
def extractLegacyCli (legacy : List (String × JsonValue)) : List (String × JsonValue) :=
  let cli1 : List (String × JsonValue) :=
    match lookupEntry legacy "packageManager" with
    | some (.str s) =>
      if s = "" then [] else if s = "default" then [] else [("packageManager", .str s)]
    | _ => []
  let cli2 : List (String × JsonValue) :=
    match lookupEntry legacy "defaults" with
    | some (.obj defaults) =>
      (match lookupEntry defaults "schematics" with
       | some (.obj schematics) =>
         (match lookupEntry schematics "collection" with
          | some (.str c) => cli1 ++ [("defaultCollection", .str c)]
          | _ => cli1)
       | _ => cli1)
    | _ => cli1
  match lookupEntry legacy "warnings" with
  | some (.obj w) =>
    (match lookupEntry w "versionMismatch" with
     | some (.bool b) => cli2 ++ [("warnings", .obj [("versionMismatch", .bool b)])]
     | _ => cli2)
  | _ => cli2

/-- `migrateLegacyGlobalConfig()`: when a home directory exists, the legacy
file exists and parses to an object, and the extracted `cli` object has at
least one key, write the new-format global file and answer `true`;
otherwise answer `false` leaving the file system untouched. -/
def migrateLegacyGlobalConfig (env : SystemEnv) : Bool × SystemEnv :=
  if env.homedir = "" then (false, env)
  else
    let legacyGlobalConfigPath := pathJoin2 env.homedir ".angular-cli.json"
    match readFile env legacyGlobalConfigPath with
    | some (.json (.obj legacy)) =>
      let cli := extractLegacyCli legacy
      if cli.isEmpty then (false, env)
      else
        let globalPath := pathJoin2 env.homedir globalFileName
        (true, writeFile env globalPath (.json (.obj [("version", .num 1), ("cli", .obj cli)])))
    | _ => (false, env)

/-- JavaScript `Object.assign(target, source)` for the source shapes that
can reach it: an object contributes its entries in order, a string or an
array contributes its elements under their stringified indices, and
`undefined`, `null` and the remaining primitives contribute nothing. -/
def jsAssign (target : List (String × JsonValue)) : Option JsonValue → List (String × JsonValue)
  | some (.obj o) => o.foldl (fun acc kv => setEntry acc kv.1 kv.2) target
  | some (.str s) =>
    (s.data.enum.map (fun ic => (toString ic.1, JsonValue.str (String.mk [ic.2])))).foldl
      (fun acc kv => setEntry acc kv.1 kv.2) target
  | some (.arr xs) =>
    (xs.enum.map (fun ix => (toString ix.1, ix.2))).foldl
      (fun acc kv => setEntry acc kv.1 kv.2) target
  | _ => target

/-- The `mergeOptions` closure of `getSchematicDefaults`: when the scope's
`schematics` extension is an object, assign the options stored under the
qualified `collection:schematic` key, then the options of the nested
`schematics[collection][schematic]` form. -/
def mergeOptions (collection schematic : String) (result : List (String × JsonValue)) :
    Option JsonValue → List (String × JsonValue)
  | some (.obj source) =>
    let r1 := jsAssign result (lookupEntry source (collection ++ ":" ++ schematic))
    (match lookupEntry source collection with
     | some (.obj collectionOptions) => jsAssign r1 (lookupEntry collectionOptions schematic)
     | _ => r1)
  | _ => result

/-- `workspace.projects.get(project)?.extensions['schematics']`. -/
def projectSchematics (w : AngularWorkspace) (p : String) : Option JsonValue :=
  (lookupEntry w.projects p).bind (fun proj => lookupEntry proj.extensions "schematics")

/-- `getSchematicDefaults(collection, schematic, project?)`: merge the
matching option objects of the global document, then the local workspace
root, then the selected project (the explicit project argument when
truthy, else the project for the current directory), each scope merging
the qualified key form before the nested form. -/
def getSchematicDefaults (collection schematic : String) (project : Option String)
    (env : SystemEnv) (st : CacheState) :
    Except String (List (String × JsonValue) × CacheState) :=
  match getWorkspace .globalLevel env st with
  | .error e => .error e
  | .ok (globalOptions, st1) =>
    let r1 := mergeOptions collection schematic []
      (globalOptions.bind (fun g => lookupEntry g.extensions "schematics"))
    match getWorkspace .localLevel env st1 with
    | .error e => .error e
    | .ok (none, st2) => .ok (r1, st2)
    | .ok (some w, st2) =>
      let r2 := mergeOptions collection schematic r1 (lookupEntry w.extensions "schematics")
      let project2 := match project with
        | some p => if p = "" then getProjectByCwd w env.cwd else some p
        | none => getProjectByCwd w env.cwd
      match project2 with
      | some p =>
        if p = "" then .ok (r2, st2)
        else .ok (mergeOptions collection schematic r2 (projectSchematics w p), st2)
      | none => .ok (r2, st2)

/-! ## Properties of the sorting and duplicate-detection pipeline -/

/-- The first tuple whose root-string length is maximal (declaration order
breaks ties), the selection rule of the amended deepest-match claim. -/
def firstMax : List (String × String) → Option (String × String)
  | [] => none
  | x :: xs =>
    match firstMax xs with
    | none => some x
    | some m => if x.1.length < m.1.length then some m else some x

theorem insertDesc_ne_nil (x : String × String) (l : List (String × String)) :
    insertDesc x l ≠ [] := by
  cases l with
  | nil => simp [insertDesc]
  | cons y ys =>
    by_cases h : y.1.length ≤ x.1.length <;> simp [insertDesc, h]

theorem sortByLenDesc_eq_nil_iff (l : List (String × String)) :
    sortByLenDesc l = [] ↔ l = [] := by
  cases l with
  | nil => simp [sortByLenDesc]
  | cons x xs =>
    simp [sortByLenDesc, insertDesc_ne_nil x (sortByLenDesc xs)]

theorem insertDesc_perm (x : String × String) (l : List (String × String)) :
    List.Perm (insertDesc x l) (x :: l) := by
  induction l with
  | nil => rfl
  | cons y ys ih =>
    by_cases h : y.1.length ≤ x.1.length
    · simp [insertDesc, h]
    · simp only [insertDesc, h, if_neg]
      exact (List.Perm.cons y ih).trans (List.Perm.swap x y ys)

theorem sortByLenDesc_perm (l : List (String × String)) :
    List.Perm (sortByLenDesc l) l := by
  induction l with
  | nil => rfl
  | cons x xs ih =>
    exact (insertDesc_perm x (sortByLenDesc xs)).trans (List.Perm.cons x ih)

theorem head?_sortByLenDesc (l : List (String × String)) :
    (sortByLenDesc l).head? = firstMax l := by
  induction l with
  | nil => rfl
  | cons x xs ih =>
    simp only [sortByLenDesc, firstMax]
    cases h : sortByLenDesc xs with
    | nil =>
      have hxs : xs = [] := (sortByLenDesc_eq_nil_iff xs).mp h
      subst hxs
      simp [insertDesc, firstMax]
    | cons y ys =>
      rw [h] at ih
      simp only [List.head?_cons] at ih
      rw [← ih]
      by_cases hle : y.1.length ≤ x.1.length
      · have hnlt : ¬ x.1.length < y.1.length := not_lt.mpr hle
        simp [insertDesc, hle, hnlt]
      · have hlt : x.1.length < y.1.length := not_le.mp hle
        simp [insertDesc, hle, hlt]

theorem dedupFilter_eq_nil_iff (l : List (String × String)) (found : List String) :
    dedupFilter l found = [] ↔
      (l.map Prod.fst).Nodup ∧ ∀ x ∈ l.map Prod.fst, x ∉ found := by
  induction l generalizing found with
  | nil => simp [dedupFilter]
  | cons v vs ih =>
    by_cases h : v.1 ∈ found
    · simp only [dedupFilter, if_pos h, List.map_cons, List.nodup_cons]
      constructor
      · intro hc; cases hc
      · rintro ⟨-, hall⟩
        exact absurd h (hall v.1 (List.mem_cons_self v.1 _))
    · simp only [dedupFilter, if_neg h, ih, List.map_cons, List.nodup_cons, List.mem_cons]
      constructor
      · rintro ⟨hnd, hall⟩
        refine ⟨⟨fun hmem => (hall v.1 hmem) (Or.inl rfl), hnd⟩, ?_⟩
        rintro x (rfl | hx)
        · exact h
        · exact fun hxf => (hall x hx) (Or.inr hxf)
      · rintro ⟨⟨hv, hnd⟩, hall⟩
        refine ⟨hnd, ?_⟩
        intro x hx
        rintro (rfl | hxf)
        · exact hv hx
        · exact (hall x (Or.inr hx)) hxf

/-! ## Claim C1: deepest-match selection and ambiguity -/

/-- A workspace with two distinct projects whose distinct root strings
have equal length and resolve into the same directory: the deepest match
for a location inside that directory is tied. -/
def wsTiedRoots : AngularWorkspace :=
  { basePath := "/w", extensions := [],
    projects := [("p1", ⟨"a/.", []⟩), ("p2", ⟨"./a", []⟩)] }

/-- Claim C1, counterexample.  The claim states that a deepest match tied
between two distinct projects at the same root length returns null.  In
`wsTiedRoots` both projects match the location, their distinct roots have
equal length three, yet `getProjectByPath` returns the first declared
project rather than null: the duplicate-root check compares root strings
only, and the stable sort lets the first declared project win a length
tie. -/
theorem c1_counterexample :
    ("a/." : String) ≠ "./a" ∧
    ("a/." : String).length = ("./a" : String).length ∧
    isInside "/cur" "/w" "a/." "/w/a/x" = true ∧
    isInside "/cur" "/w" "./a" "/w/a/x" = true ∧
    getProjectByPath wsTiedRoots "/cur" "/w/a/x" = some "p1" := by
  refine ⟨by decide, by decide, by decide, by decide, by decide⟩

/-- Claim C1, amended.  Among the projects whose root contains the target,
`getProjectByPath` returns the name of the first declared project with the
longest root path string (a length tie is broken by declaration order, not
reported as ambiguous); it returns null exactly when no project matches or
when two matching projects share an identical root path string. -/
theorem c1_amended_thm (ws : AngularWorkspace) (cwd location : String) :
    (projectTuples ws cwd location = [] → getProjectByPath ws cwd location = none) ∧
    (¬ ((projectTuples ws cwd location).map Prod.fst).Nodup →
      getProjectByPath ws cwd location = none) ∧
    (((projectTuples ws cwd location).map Prod.fst).Nodup →
      ∀ r n, firstMax (projectTuples ws cwd location) = some (r, n) →
        getProjectByPath ws cwd location = some n) := by
  refine ⟨?_, ?_, ?_⟩
  · intro h
    have hs : sortByLenDesc (projectTuples ws cwd location) = [] :=
      (sortByLenDesc_eq_nil_iff _).mpr h
    simp [getProjectByPath, hs]
  · intro hnd
    cases hs : sortByLenDesc (projectTuples ws cwd location) with
    | nil =>
      have h0 : projectTuples ws cwd location = [] := (sortByLenDesc_eq_nil_iff _).mp hs
      exact absurd (by simp [h0]) hnd
    | cons p ps =>
      have hnds : ¬ ((p :: ps).map Prod.fst).Nodup := by
        rw [← hs]
        intro hh
        exact hnd ((((sortByLenDesc_perm (projectTuples ws cwd location)).map
          Prod.fst).nodup_iff).mp hh)
      have hps : ps ≠ [] := by
        intro he
        subst he
        exact hnds (by simp)
      have hded : dedupFilter (p :: ps) [] ≠ [] := by
        intro he
        exact hnds ((dedupFilter_eq_nil_iff (p :: ps) []).mp he).1
      have hlen : 1 < (p :: ps).length := by
        cases ps with
        | nil => exact absurd rfl hps
        | cons a as => simp [List.length_cons]
      have hdlen : 0 < (dedupFilter (p :: ps) []).length := List.length_pos.mpr hded
      simp [getProjectByPath, hs, hlen, hdlen, hps]
  · intro hnd r n hfm
    cases hs : sortByLenDesc (projectTuples ws cwd location) with
    | nil =>
      have h1 := head?_sortByLenDesc (projectTuples ws cwd location)
      rw [hs, hfm] at h1
      simp at h1
    | cons p ps =>
      have hhead : p = (r, n) := by
        have h1 := head?_sortByLenDesc (projectTuples ws cwd location)
        rw [hs, hfm] at h1
        simpa using h1
      subst hhead
      have hnds : ((((r, n)) :: ps).map Prod.fst).Nodup := by
        rw [← hs]
        exact (((sortByLenDesc_perm (projectTuples ws cwd location)).map
          Prod.fst).nodup_iff).mpr hnd
      have hded : dedupFilter ((r, n) :: ps) [] = [] :=
        (dedupFilter_eq_nil_iff ((r, n) :: ps) []).mpr ⟨hnds, by simp⟩
      by_cases hlen : 1 < ((r, n) :: ps).length
      · simp [getProjectByPath, hs, hlen, hded]
      · simp [getProjectByPath, hs, hlen, hded]

/-- Claim C1, witness for the amended theorem: in the tied scenario the
roots are distinct strings, so the no-duplicate branch applies and the
first declared project of maximal root length is selected. -/
theorem c1_witness : getProjectByPath wsTiedRoots "/cur" "/w/a/x" = some "p1" :=
  (c1_amended_thm wsTiedRoots "/cur" "/w/a/x").2.2 (by decide) "a/." "p1" (by decide)

/-! ## Claims C6 and C10: project selection for the current directory -/

/-- A two-project workspace whose `defaultProject` extension is present
and is a string, but the empty one. -/
def wsEmptyDefault : AngularWorkspace :=
  { basePath := "/w", extensions := [("defaultProject", .str "")],
    projects := [("p1", ⟨"a", []⟩), ("p2", ⟨"b", []⟩)] }

/-- Claim C6, counterexample.  The claim states that when path-based
selection fails, the `defaultProject` extension value is returned whenever
it is present and a string.  In `wsEmptyDefault` the value is present and
is the string `""`, path-based selection fails for the given directory,
yet `getProjectByCwd` returns null: the source tests the value with
JavaScript truthiness, which rejects the empty string. -/
theorem c6_counterexample :
    lookupEntry wsEmptyDefault.extensions "defaultProject" = some (JsonValue.str "") ∧
    1 < wsEmptyDefault.projects.length ∧
    getProjectByPath wsEmptyDefault "/elsewhere" "/elsewhere" = none ∧
    getProjectByCwd wsEmptyDefault "/elsewhere" = none := by
  refine ⟨rfl, by decide, by decide, by decide⟩

/-- Claim C6, amended.  `getProjectByCwd` returns the unique project
unconditionally whenever the workspace has exactly one project, regardless
of the current directory; otherwise it returns the non-empty result of
path-based selection against the current directory, else the
`defaultProject` extension value when that is present and a non-empty
string, else null — in particular a `defaultProject` equal to the empty
string yields null. -/
theorem c6_amended_thm (ws : AngularWorkspace) (cwd : String) :
    (∀ n p, ws.projects = [(n, p)] → getProjectByCwd ws cwd = some n) ∧
    (ws.projects.length ≠ 1 → ∀ q, getProjectByPath ws cwd cwd = some q → q ≠ "" →
      getProjectByCwd ws cwd = some q) ∧
    (ws.projects.length ≠ 1 →
      (getProjectByPath ws cwd cwd = none ∨ getProjectByPath ws cwd cwd = some "") →
      ∀ s, lookupEntry ws.extensions "defaultProject" = some (.str s) → s ≠ "" →
        getProjectByCwd ws cwd = some s) ∧
    (ws.projects.length ≠ 1 →
      (getProjectByPath ws cwd cwd = none ∨ getProjectByPath ws cwd cwd = some "") →
      lookupEntry ws.extensions "defaultProject" = some (.str "") →
        getProjectByCwd ws cwd = none) := by
  refine ⟨?_, ?_, ?_, ?_⟩
  · intro n p h
    simp [getProjectByCwd, h]
  · intro hlen q hq hne
    simp [getProjectByCwd, hlen, hq, hne]
  · intro hlen hpath s hdp hne
    rcases hpath with hp | hp <;> simp [getProjectByCwd, hlen, hp, hdp, hne]
  · intro hlen hpath hdp
    rcases hpath with hp | hp <;> simp [getProjectByCwd, hlen, hp, hdp]

/-- Claim C6, witness: a single-project workspace yields its project for
an unrelated current directory. -/
theorem c6_witness :
    getProjectByCwd
      { basePath := "/w", extensions := [],
        projects := [("solo", ⟨"deep/root", []⟩)] } "/nowhere/related" = some "solo" :=
  (c6_amended_thm _ "/nowhere/related").1 "solo" ⟨"deep/root", []⟩ rfl

/-- Claim C10.  When the workspace has more than one project, path-based
selection fails for the current directory, and the `defaultProject`
extension is a non-empty string, `getProjectByCwd` returns that string —
with no hypothesis requiring it to name a declared project. -/
theorem c10_thm (ws : AngularWorkspace) (cwd : String) (s : String)
    (hlen : 1 < ws.projects.length)
    (hpath : getProjectByPath ws cwd cwd = none)
    (hdp : lookupEntry ws.extensions "defaultProject" = some (.str s))
    (hne : s ≠ "") :
    getProjectByCwd ws cwd = some s := by
  have hlen1 : ws.projects.length ≠ 1 := by omega
  simp [getProjectByCwd, hlen1, hpath, hdp, hne]

/-- A two-project workspace whose `defaultProject` names no declared
project. -/
def wsGhostDefault : AngularWorkspace :=
  { basePath := "/w", extensions := [("defaultProject", .str "ghost")],
    projects := [("p1", ⟨"a", []⟩), ("p2", ⟨"b", []⟩)] }

/-- Claim C10, witness: the returned name `ghost` is not a key of the
projects mapping. -/
theorem c10_witness :
    "ghost" ∉ wsGhostDefault.projects.map Prod.fst ∧
    getProjectByCwd wsGhostDefault "/elsewhere" = some "ghost" :=
  ⟨by decide, c10_thm wsGhostDefault "/elsewhere" "ghost" (by decide) (by decide)
    rfl (by decide)⟩

/-! ## Claim C7: nested roots, deepest wins -/

theorem joinSegs_cons_data (s : String) (r : List String) :
    ∃ t, (joinSegs (s :: r)).data = s.data ++ t := by
  cases r with
  | nil => exact ⟨[], by simp [joinSegs]⟩
  | cons y ys =>
    refine ⟨"/".data ++ (joinSegs (y :: ys)).data, ?_⟩
    show ((s ++ "/") ++ joinSegs (y :: ys)).data = _
    rw [String.data_append, String.data_append, List.append_assoc]

theorem jsStartsWith_joinSegs_dotdot (r : List String) :
    jsStartsWith (joinSegs (".." :: r)) ".." = true := by
  obtain ⟨t, ht⟩ := joinSegs_cons_data ".." r
  have hd : (".." : String).data = ['.', '.'] := rfl
  simp [jsStartsWith, ht, hd, List.isPrefixOf]

theorem joinSegs_b_not_dotdot (r : List String) :
    jsStartsWith (joinSegs ("b" :: r)) ".." = false := by
  obtain ⟨t, ht⟩ := joinSegs_cons_data "b" r
  have hd : (".." : String).data = ['.', '.'] := rfl
  have hb : ("b" : String).data = ['b'] := rfl
  simp [jsStartsWith, ht, hd, hb, List.isPrefixOf]

theorem joinSegs_b_not_absolute (r : List String) :
    jsIsAbsolute (joinSegs ("b" :: r)) = false := by
  obtain ⟨t, ht⟩ := joinSegs_cons_data "b" r
  have hd : ("/" : String).data = ['/'] := rfl
  have hb : ("b" : String).data = ['b'] := rfl
  simp [jsIsAbsolute, jsStartsWith, ht, hd, hb, List.isPrefixOf]

theorem commonPrefixLen_le_length (f L : List String) :
    commonPrefixLen f L ≤ f.length := by
  induction f generalizing L with
  | nil => simp [commonPrefixLen]
  | cons a as ih =>
    cases L with
    | nil => simp [commonPrefixLen]
    | cons b bs =>
      by_cases hab : a = b
      · simpa [commonPrefixLen, hab] using ih bs
      · simp [commonPrefixLen, hab]

theorem relSegs_starts_dotdot (f L : List String)
    (h : commonPrefixLen f L < f.length) :
    jsStartsWith (joinSegs (relSegs f L)) ".." = true := by
  have hpos : 0 < f.length - commonPrefixLen f L := by omega
  obtain ⟨n, hn⟩ : ∃ n, f.length - commonPrefixLen f L = n + 1 :=
    ⟨f.length - commonPrefixLen f L - 1, by omega⟩
  rw [relSegs, hn, List.replicate_succ, List.cons_append]
  exact jsStartsWith_joinSegs_dotdot _

theorem prefix_of_commonPrefixLen_eq (f : List String) :
    ∀ L, commonPrefixLen f L = f.length →
      ∃ rest, L = f ++ rest ∧ relSegs f L = rest := by
  induction f with
  | nil =>
    intro L _
    exact ⟨L, by simp, by simp [relSegs, commonPrefixLen]⟩
  | cons a as ih =>
    intro L h
    cases L with
    | nil => simp [commonPrefixLen] at h
    | cons b bs =>
      by_cases hab : a = b
      · subst hab
        rw [commonPrefixLen, if_pos rfl] at h
        simp only [List.length_cons] at h
        have h2 : commonPrefixLen as bs = as.length := by omega
        obtain ⟨rest, hrest, hrel⟩ := ih bs h2
        refine ⟨rest, by simp [hrest], ?_⟩
        simp only [relSegs, commonPrefixLen, if_pos rfl, h2, List.length_cons] at hrel ⊢
        simpa using hrel
      · rw [commonPrefixLen, if_neg hab] at h
        simp at h

/-- A workspace with the nested project roots `a` and `a/b`. -/
def wsNested : AngularWorkspace :=
  { basePath := "/w", extensions := [],
    projects := [("p1", ⟨"a", []⟩), ("p2", ⟨"a/b", []⟩)] }

theorem resolveSegs_absolute_base (cwd base rel : String)
    (hb : jsIsAbsolute base = true) (hr : jsIsAbsolute rel = false) :
    resolveSegs cwd [base, rel] = normalizeSegs (splitPath base ++ splitPath rel) := by
  simp [resolveSegs, rawResolve, List.foldl, hb, hr]

/-- Claim C7.  For the workspace with nested project roots `a` and `a/b`,
any target location that the source's containment test places inside
`a/b` selects the `a/b` project: the deepest containing root wins over the
shallower one. -/
theorem c7_thm (cwd location : String)
    (h : isInside cwd "/w" "a/b" location = true) :
    getProjectByPath wsNested cwd location = some "p2" := by
  have habs : resolveSegs cwd ["/w", "a/b"] = ["w", "a", "b"] :=
    (resolveSegs_absolute_base cwd "/w" "a/b" (by decide) (by decide)).trans (by decide)
  have habs2 : resolveSegs cwd ["/w", "a"] = ["w", "a"] :=
    (resolveSegs_absolute_base cwd "/w" "a" (by decide) (by decide)).trans (by decide)
  have hAB := h
  simp only [isInside, habs, Bool.and_eq_true, Bool.not_eq_true'] at h
  obtain ⟨h1, _⟩ := h
  have hle := commonPrefixLen_le_length ["w", "a", "b"] (resolveSegs cwd ["/w", location])
  by_cases hc :
      commonPrefixLen ["w", "a", "b"] (resolveSegs cwd ["/w", location]) =
        (["w", "a", "b"] : List String).length
  · obtain ⟨rest, hLr, hrel⟩ :=
      prefix_of_commonPrefixLen_eq ["w", "a", "b"] (resolveSegs cwd ["/w", location]) hc
    rw [hrel] at h1
    have hInsideA : isInside cwd "/w" "a" location = true := by
      have hrel2 : relSegs ["w", "a"] (resolveSegs cwd ["/w", location]) = "b" :: rest := by
        rw [hLr]
        simp [relSegs, commonPrefixLen]
      simp only [isInside, habs2, hrel2, Bool.and_eq_true, Bool.not_eq_true']
      exact ⟨joinSegs_b_not_dotdot rest, joinSegs_b_not_absolute rest⟩
    simp only [getProjectByPath, projectTuples, wsNested, List.map_cons, List.map_nil,
      List.filter, hInsideA, hAB]
    decide
  · have hlt : commonPrefixLen ["w", "a", "b"] (resolveSegs cwd ["/w", location]) <
        (["w", "a", "b"] : List String).length := lt_of_le_of_ne hle hc
    have := relSegs_starts_dotdot ["w", "a", "b"] (resolveSegs cwd ["/w", location]) hlt
    rw [h1] at this
    cases this

/-- Claim C7, witness: a concrete location under the `a/b` root. -/
theorem c7_witness :
    isInside "/cur" "/w" "a/b" "/w/a/b/c" = true ∧
    getProjectByPath wsNested "/cur" "/w/a/b/c" = some "p2" :=
  ⟨by decide, c7_thm "/cur" "/w/a/b/c" (by decide)⟩

/-! ## Claim C2: global config path resolution -/

/-- An environment where `XDG_CONFIG_HOME` is set to `/xdg` and the only
configuration file on disk sits at `/xdg/angular/.angular-config.json` —
the location the claim designates as the XDG-style path. -/
def envXdgClaimPath : SystemEnv :=
  { homedir := "/home/u", xdgConfigHome := some "/xdg", cwd := "/home/u",
    moduleDir := "/lib/cli",
    files := [("/xdg/angular/.angular-config.json", .json (.obj [("version", .num 1)]))] }

/-- Claim C2, counterexample.  The claim states that with the environment
variable set, the path checked first is
`$XDG_CONFIG_HOME/angular/.angular-config.json`.  In `envXdgClaimPath`
that very file exists, yet `globalFilePath` returns not-found: when the
variable is set the source appends the file name directly to it, checking
`/xdg/.angular-config.json` and never the claimed path. -/
theorem c2_counterexample :
    existsSync envXdgClaimPath "/xdg/angular/.angular-config.json" = true ∧
    globalFilePath envXdgClaimPath = none := by
  refine ⟨by decide, by decide⟩

/-- The amended resolution rule, stated from the claim's words with the
XDG-style path corrected: when `XDG_CONFIG_HOME` is set and non-empty the
candidate is `$XDG_CONFIG_HOME/.angular-config.json` (the application
segment is not inserted); when it is unset or empty the candidate is
`<home>/.config/angular/.angular-config.json`; a resolvable home directory
is required, the XDG-style candidate is preferred when it exists, then the
home candidate, then not-found. -/
def resolveGlobalConfigPathSpec (env : SystemEnv) : Option String :=
  if env.homedir = "" then none
  else
    let base := match env.xdgConfigHome with
      | some s => if s = "" then env.homedir ++ "/.config/angular" else s
      | none => env.homedir ++ "/.config/angular"
    let xdgCandidate := base ++ "/" ++ globalFileName
    let homeCandidate := env.homedir ++ "/" ++ globalFileName
    if existsSync env xdgCandidate then some xdgCandidate
    else if existsSync env homeCandidate then some homeCandidate
    else none

/-- Claim C2, amended.  `globalFilePath` returns not-found when no home
directory is resolvable and otherwise implements exactly the corrected
candidate cascade of `resolveGlobalConfigPathSpec`. -/
theorem c2_amended_thm (env : SystemEnv) :
    globalFilePath env = resolveGlobalConfigPathSpec env ∧
    (env.homedir = "" → globalFilePath env = none) := by
  constructor
  · by_cases hh : env.homedir = ""
    · simp [globalFilePath, resolveGlobalConfigPathSpec, hh]
    · cases hx : env.xdgConfigHome with
      | none =>
        simp [globalFilePath, resolveGlobalConfigPathSpec, xdgConfigHome, hh, hx,
          pathJoin2, pathJoin3, String.append_assoc]
      | some s =>
        by_cases hs : s = "" <;>
          simp [globalFilePath, resolveGlobalConfigPathSpec, xdgConfigHome, hh, hx, hs,
            pathJoin2, pathJoin3, String.append_assoc]
  · intro hh
    simp [globalFilePath, hh]

/-- An environment with no resolvable home directory. -/
def envNoHome : SystemEnv :=
  { homedir := "", xdgConfigHome := none, cwd := "/", moduleDir := "/lib/cli",
    files := [] }

/-- Claim C2, witness: without a home directory the resolution is
not-found. -/
theorem c2_witness : globalFilePath envNoHome = none :=
  (c2_amended_thm envNoHome).2 rfl

/-! ## Claim C3: legacy migration -/

/-- The condition under which migration has material to work with: a
resolvable home directory whose legacy file exists and parses to a JSON
object (stated from the claim's words as a characterisation helper). -/
def readLegacyObj (env : SystemEnv) : Option (List (String × JsonValue)) :=
  if env.homedir = "" then none
  else
    match readFile env (pathJoin2 env.homedir ".angular-cli.json") with
    | some (.json (.obj o)) => some o
    | _ => none

/-- Claim C3.  `migrateLegacyGlobalConfig` returns true and writes the
new-format global file exactly when the legacy file exists (under a
resolvable home directory), parses to an object, and the extracted `cli`
object has at least one key; in every other case — including a legacy file
whose content is a parse error, represented by the `malformed` content —
it returns false and leaves the file system untouched; and a
`packageManager` equal to the literal string `"default"` is never carried
into the extracted `cli` object.  The function is total, so no case
throws. -/
theorem c3_thm (env : SystemEnv) :
    (∀ o, readLegacyObj env = some o → extractLegacyCli o ≠ [] →
      migrateLegacyGlobalConfig env =
        (true, writeFile env (pathJoin2 env.homedir globalFileName)
          (.json (.obj [("version", .num 1), ("cli", .obj (extractLegacyCli o))])))) ∧
    (∀ b env2, migrateLegacyGlobalConfig env = (b, env2) → b = false → env2 = env) ∧
    ((migrateLegacyGlobalConfig env).1 = true →
      ∃ o, readLegacyObj env = some o ∧ extractLegacyCli o ≠ []) ∧
    (∀ o, lookupEntry o "packageManager" = some (.str "default") →
      lookupEntry (extractLegacyCli o) "packageManager" = none) := by
  refine ⟨?_, ?_, ?_, ?_⟩
  · intro o ho hne
    by_cases hh : env.homedir = ""
    · simp [readLegacyObj, hh] at ho
    · rw [readLegacyObj, if_neg hh] at ho
      split at ho
      case _ heq =>
        rw [Option.some.injEq] at ho
        subst ho
        simp [migrateLegacyGlobalConfig, hh, heq, List.isEmpty_iff, hne]
      case _ hne2 => exact absurd ho (by simp)
  · intro b env2 hm hb
    subst hb
    by_cases hh : env.homedir = ""
    · rw [migrateLegacyGlobalConfig, if_pos hh] at hm
      exact (Prod.mk.injEq _ _ _ _ ▸ hm).2.symm
    · simp only [migrateLegacyGlobalConfig, hh, if_false, ite_false] at hm
      split at hm
      case _ heq =>
        split at hm
        · exact (Prod.mk.injEq _ _ _ _ ▸ hm).2.symm
        · exact absurd (Prod.mk.injEq _ _ _ _ ▸ hm).1 (by simp)
      case _ => exact (Prod.mk.injEq _ _ _ _ ▸ hm).2.symm
  · intro htrue
    by_cases hh : env.homedir = ""
    · rw [migrateLegacyGlobalConfig, if_pos hh] at htrue
      exact absurd htrue (by simp)
    · simp only [migrateLegacyGlobalConfig, hh, if_false, ite_false] at htrue
      split at htrue
      case _ legacy heq =>
        by_cases hcli : (extractLegacyCli legacy).isEmpty
        · rw [if_pos hcli] at htrue
          exact absurd htrue (by simp)
        · refine ⟨legacy, ?_, ?_⟩
          · rw [readLegacyObj, if_neg hh, heq]
          · intro he
            exact hcli (by simp [he])
      case _ => exact absurd htrue (by simp)
  · intro o hpm
    rw [extractLegacyCli, hpm]
    repeat' split
    all_goals simp_all [lookupEntry]

/-- An environment whose legacy file sets `packageManager` to `npm`. -/
def envLegacyNpm : SystemEnv :=
  { homedir := "/home/u", xdgConfigHome := none, cwd := "/home/u", moduleDir := "/lib/cli",
    files := [("/home/u/.angular-cli.json", .json (.obj [("packageManager", .str "npm")]))] }

/-- Claim C3, witness: the `npm` legacy file migrates, writing the
new-format document with `cli.packageManager = "npm"`. -/
theorem c3_witness :
    migrateLegacyGlobalConfig envLegacyNpm =
      (true, writeFile envLegacyNpm "/home/u/.angular-config.json"
        (.json (.obj [("version", .num 1),
          ("cli", .obj [("packageManager", .str "npm")])]))) := by
  have h := (c3_thm envLegacyNpm).1 [("packageManager", JsonValue.str "npm")] rfl
    (by intro hc; exact absurd (congrArg List.length hc) (by decide))
  exact h.trans rfl

/-! ## Claim C8: the scope cache resolves at most once -/

/-- Claim C8.  Whenever `getWorkspace` returns for a scope, the cache
holds exactly the returned result for that scope; any later call for the
same scope returns that result with the cache unchanged, whatever the
environment and file system then look like (so nothing is re-read from
disk); and a call that finds the scope already cached returns the cached
value — possibly the resolved absence `none` — without modifying the
cache, so the cache entry of a scope is written at most once. -/
theorem c8_thm (level : Level) (env : SystemEnv) (st : CacheState)
    (v : Option AngularWorkspace) (st2 : CacheState)
    (h : getWorkspace level env st = .ok (v, st2)) :
    st2.get level = some v ∧
    (∀ env2 : SystemEnv, getWorkspace level env2 st2 = .ok (v, st2)) ∧
    (∀ c, st.get level = some c → v = c ∧ st2 = st) := by
  have hcached : ∀ (st3 : CacheState), st3.get level = some v →
      ∀ env2 : SystemEnv, getWorkspace level env2 st3 = .ok (v, st3) := by
    intro st3 h3 env2
    rw [getWorkspace.eq_def, h3]
  cases hc : st.get level with
  | some cached =>
    rw [getWorkspace.eq_def] at h
    simp only [hc, Except.ok.injEq, Prod.mk.injEq] at h
    obtain ⟨rfl, rfl⟩ := h
    refine ⟨hc, hcached st hc, ?_⟩
    intro c h3
    cases h3
    exact ⟨rfl, rfl⟩
  | none =>
    rw [getWorkspace.eq_def] at h
    simp only [hc] at h
    have hset : st2.get level = some v := by
      split at h
      · simp only [Except.ok.injEq, Prod.mk.injEq] at h
        obtain ⟨rfl, rfl⟩ := h
        exact CacheState.get_set st level none
      · split at h
        · simp only [Except.ok.injEq, Prod.mk.injEq] at h
          obtain ⟨rfl, rfl⟩ := h
          exact CacheState.get_set st level _
        · exact Except.noConfusion h
    refine ⟨hset, hcached st2 hset, ?_⟩
    intro c h3
    exact Option.noConfusion h3

/-- Claim C8, witness: an environment without a home directory resolves
the global scope to the absent workspace, the result is cached, and a
second call — against an environment that now has a home directory and a
global config file on disk — still returns the cached absence with the
cache unchanged. -/
theorem c8_witness :
    getWorkspace .globalLevel
      { homedir := "/home/u", xdgConfigHome := none, cwd := "/home/u",
        moduleDir := "/lib/cli",
        files := [("/home/u/.angular-config.json", .json (.obj [("version", .num 1)]))] }
      { localCache := none, globalCache := some none } =
      .ok (none, { localCache := none, globalCache := some none }) :=
  (c8_thm .globalLevel envNoHome { localCache := none, globalCache := none }
    none { localCache := none, globalCache := some none } rfl).2.1 _

/-! ## Claim C9: global settings round-trip -/

/-- The XDG-style candidate path that `globalFilePath` checks first. -/
def xdgGlobalFilePath (env : SystemEnv) : String :=
  xdgConfigHome env env.homedir (some globalFileName)

theorem homedir_writeFile (env : SystemEnv) (p : String) (c : FileContent) :
    (writeFile env p c).homedir = env.homedir := rfl

theorem xdgGlobalFilePath_writeFile (env : SystemEnv) (p : String) (c : FileContent) :
    xdgGlobalFilePath (writeFile env p c) = xdgGlobalFilePath env := rfl

theorem readFile_writeFile (env : SystemEnv) (p : String) (c : FileContent) (q : String) :
    readFile (writeFile env p c) q = if q = p then some c else readFile env q :=
  lookupEntry_setEntry env.files p q c

/-- An environment whose XDG-located global config file carries version 2
while no home-directory global config exists. -/
def envXdgShadow : SystemEnv :=
  { homedir := "/home/u", xdgConfigHome := none, cwd := "/home/u", moduleDir := "/lib/cli",
    files := [("/home/u/.config/angular/.angular-config.json",
      .json (.obj [("version", .num 2)]))] }

/-- The file system of `envXdgShadow` after `createGlobalSettings`. -/
def envXdgShadow2 : SystemEnv :=
  writeFile envXdgShadow "/home/u/.angular-config.json" (.json (.obj [("version", .num 1)]))

/-- Claim C9, counterexample.  `createGlobalSettings` writes the home
file, but a subsequent `getWorkspaceRaw` for the global scope prefers the
XDG-located file, so the read-back document carries version 2, not
version 1: the claimed round-trip fails whenever an XDG-located config
file shadows the home one. -/
theorem c9_counterexample :
    createGlobalSettings envXdgShadow = .ok ("/home/u/.angular-config.json", envXdgShadow2) ∧
    getWorkspaceRaw .globalLevel envXdgShadow2 =
      .ok ((some (.obj [("version", .num 2)]),
            some "/home/u/.config/angular/.angular-config.json"), envXdgShadow2) ∧
    JsonValue.num 2 ≠ JsonValue.num 1 := by
  refine ⟨rfl, rfl, by simp⟩

/-- Claim C9, amended.  Provided no XDG-located config file exists (and
the XDG candidate differs from the home path), writing the global
settings file via `createGlobalSettings` and reading it back via
`getWorkspaceRaw` for the global scope yields the document with version 1
at the home path; and when no global config file exists at all,
`getWorkspaceRaw` for the global scope itself creates this minimal file
and returns its document rather than null. -/
theorem c9_amended_thm (env : SystemEnv)
    (hh : ¬ env.homedir = "")
    (hx : readFile env (xdgGlobalFilePath env) = none)
    (hne : ¬ xdgGlobalFilePath env = pathJoin2 env.homedir globalFileName) :
    (createGlobalSettings env =
      .ok (pathJoin2 env.homedir globalFileName,
        writeFile env (pathJoin2 env.homedir globalFileName)
          (.json (.obj [("version", .num 1)]))) ∧
     getWorkspaceRaw .globalLevel
        (writeFile env (pathJoin2 env.homedir globalFileName)
          (.json (.obj [("version", .num 1)]))) =
       .ok ((some (.obj [("version", .num 1)]), some (pathJoin2 env.homedir globalFileName)),
         writeFile env (pathJoin2 env.homedir globalFileName)
           (.json (.obj [("version", .num 1)])))) ∧
    (readFile env (pathJoin2 env.homedir globalFileName) = none →
      getWorkspaceRaw .globalLevel env =
        .ok ((some (.obj [("version", .num 1)]), some (pathJoin2 env.homedir globalFileName)),
          writeFile env (pathJoin2 env.homedir globalFileName)
            (.json (.obj [("version", .num 1)])))) := by
  have hcreate : createGlobalSettings env =
      .ok (pathJoin2 env.homedir globalFileName,
        writeFile env (pathJoin2 env.homedir globalFileName)
          (.json (.obj [("version", .num 1)]))) := by
    rw [createGlobalSettings, if_neg hh]
  have hne2 : ¬ xdgConfigHome env env.homedir (some globalFileName) =
      pathJoin2 env.homedir globalFileName := hne
  have hx3 : readFile env (xdgConfigHome env env.homedir (some globalFileName)) = none := hx
  have hgp2 : readFile
      (writeFile env (pathJoin2 env.homedir globalFileName) (.json (.obj [("version", .num 1)])))
      (pathJoin2 env.homedir globalFileName) =
      some (.json (.obj [("version", .num 1)])) := by
    rw [readFile_writeFile, if_pos rfl]
  have hglobal2 : globalFilePath
      (writeFile env (pathJoin2 env.homedir globalFileName)
        (.json (.obj [("version", .num 1)]))) =
      some (pathJoin2 env.homedir globalFileName) := by
    have hxcfg : xdgConfigHome
        (writeFile env (pathJoin2 env.homedir globalFileName)
          (.json (.obj [("version", .num 1)])))
        env.homedir (some globalFileName) =
        xdgConfigHome env env.homedir (some globalFileName) := rfl
    rw [globalFilePath, homedir_writeFile, if_neg hh, hxcfg]
    rw [existsSync, readFile_writeFile, if_neg hne2, hx3]
    rw [existsSync, hgp2]
    rfl
  have hraw2 : getWorkspaceRaw .globalLevel
      (writeFile env (pathJoin2 env.homedir globalFileName)
        (.json (.obj [("version", .num 1)]))) =
      .ok ((some (.obj [("version", .num 1)]), some (pathJoin2 env.homedir globalFileName)),
        writeFile env (pathJoin2 env.homedir globalFileName)
          (.json (.obj [("version", .num 1)]))) := by
    rw [getWorkspaceRaw.eq_def]
    simp only [configPathFor, hglobal2]
    rw [rawReadParse, hgp2]
  refine ⟨⟨hcreate, hraw2⟩, ?_⟩
  intro hnoglobal
  have hgfp : globalFilePath env = none := by
    rw [globalFilePath, if_neg hh]
    rw [existsSync, hx3]
    rw [existsSync, hnoglobal]
    rfl
  rw [getWorkspaceRaw.eq_def]
  simp only [configPathFor, hgfp, hcreate]
  rw [rawReadParse, hgp2]

/-- An environment with a home directory and no configuration files. -/
def envFreshHome : SystemEnv :=
  { homedir := "/home/u", xdgConfigHome := none, cwd := "/home/u", moduleDir := "/lib/cli",
    files := [] }

/-- Claim C9, witness: with no config files at all, `getWorkspaceRaw` for
the global scope creates and returns the minimal version-1 document. -/
theorem c9_witness :
    getWorkspaceRaw .globalLevel envFreshHome =
      .ok ((some (.obj [("version", .num 1)]), some "/home/u/.angular-config.json"),
        writeFile envFreshHome "/home/u/.angular-config.json"
          (.json (.obj [("version", .num 1)]))) :=
  (c9_amended_thm envFreshHome (by decide) rfl (by decide)).2 rfl

/-! ## Claim C4: package-manager resolution order -/

theorem getProjectByPath_mem (ws : AngularWorkspace) (cwd loc n : String)
    (h : getProjectByPath ws cwd loc = some n) :
    n ∈ ws.projects.map Prod.fst := by
  rw [getProjectByPath.eq_def] at h
  cases hs : sortByLenDesc (projectTuples ws cwd loc) with
  | nil =>
    rw [hs] at h
    exact Option.noConfusion h
  | cons p ps =>
    have hp : p ∈ projectTuples ws cwd loc :=
      ((sortByLenDesc_perm (projectTuples ws cwd loc)).mem_iff).mp
        (hs ▸ List.mem_cons_self p ps)
    have hpn : n = p.2 := by
      simp only [hs] at h
      split at h
      · split at h
        · exact Option.noConfusion h
        · exact (Option.some.injEq _ _ ▸ h).symm
      · exact (Option.some.injEq _ _ ▸ h).symm
    obtain ⟨np, hnp, hmap⟩ := List.mem_map.mp (List.mem_of_mem_filter hp)
    subst hpn
    rw [← hmap]
    exact List.mem_map.mpr ⟨np, hnp, rfl⟩

theorem getProjectByCwd_ne_empty (w : AngularWorkspace) (cwd : String)
    (hn : "" ∉ w.projects.map Prod.fst) :
    ¬ getProjectByCwd w cwd = some "" := by
  intro h
  rw [getProjectByCwd.eq_def] at h
  by_cases hlen : w.projects.length = 1
  · rw [if_pos hlen] at h
    cases hl : w.projects.map Prod.fst with
    | nil =>
      rw [hl] at h
      exact Option.noConfusion h
    | cons a as =>
      rw [hl] at h
      simp only [List.head?_cons, Option.some.injEq] at h
      exact hn (hl ▸ (h ▸ List.mem_cons_self a as))
  · rw [if_neg hlen] at h
    repeat' split at h
    all_goals simp_all

/-- The claim's resolution rule, stated from its words: the first defined
`extensions.cli.packageManager` string among the selected project's cli
extensions, the local workspace root's cli extensions, and the global
document's cli extensions, in that order; the legacy reader is consulted
exactly when neither the local nor the global workspace document exists. -/
def pmSpecResolve (lw gw : Option AngularWorkspace) (cwd : String)
    (legacy : Option String) : Option String :=
  let fromProject := match lw with
    | some w =>
      (match getProjectByCwd w cwd with
       | some p => getPackageManager (projectCli w p)
       | none => none)
    | none => none
  let fromWorkspace := match lw with
    | some w => getPackageManager (lookupEntry w.extensions "cli")
    | none => none
  let fromGlobal := match gw with
    | some g => getPackageManager (lookupEntry g.extensions "cli")
    | none => none
  match fromProject with
  | some v => some v
  | none =>
    match fromWorkspace with
    | some v => some v
    | none =>
      match fromGlobal with
      | some v => some v
      | none => if lw.isNone && gw.isNone then legacy else none

/-- Claim C4.  With both scopes already resolved in the cache (to `lw` and
`gw`) and no project named by the empty string, `getConfiguredPackageManager`
returns exactly the claim's cascade: project, then workspace root, then
global `cli.packageManager`, with the legacy reader consulted only when
neither workspace document exists; the cache is left unchanged. -/
theorem c4_thm (env : SystemEnv) (st : CacheState)
    (lw gw : Option AngularWorkspace)
    (h1 : st.get .localLevel = some lw)
    (h2 : st.get .globalLevel = some gw)
    (h3 : ∀ p ∈ lw.elim [] (fun w => w.projects.map Prod.fst), p ≠ "") :
    getConfiguredPackageManager env st =
      .ok (pmSpecResolve lw gw env.cwd (getLegacyPackageManager env), st) := by
  have hlw : getWorkspace .localLevel env st = .ok (lw, st) := by
    rw [getWorkspace.eq_def, h1]
  have hgw : getWorkspace .globalLevel env st = .ok (gw, st) := by
    rw [getWorkspace.eq_def, h2]
  rw [getConfiguredPackageManager.eq_def]
  simp only [hlw, pmSpecResolve]
  cases lw with
  | none =>
    simp only [hgw]
    cases gw with
    | none => simp
    | some g =>
      cases hpm3 : getPackageManager (lookupEntry g.extensions "cli") <;> simp [hpm3]
  | some w =>
    have hw : "" ∉ w.projects.map Prod.fst := fun hmem => h3 "" hmem rfl
    cases hproj : getProjectByCwd w env.cwd with
    | some p =>
      have hp : ¬ p = "" := by
        intro he
        subst he
        exact getProjectByCwd_ne_empty w env.cwd hw hproj
      simp only [hproj, if_neg hp]
      cases hpm1 : getPackageManager (projectCli w p) with
      | some v => simp [hpm1]
      | none =>
        simp only [hpm1]
        cases hpm2 : getPackageManager (lookupEntry w.extensions "cli") with
        | some v => simp [hpm2]
        | none =>
          simp only [hpm2, hgw]
          cases gw with
          | some g =>
            cases hpm3 : getPackageManager (lookupEntry g.extensions "cli") <;> simp [hpm3]
          | none => simp
    | none =>
      simp only [hproj]
      cases hpm2 : getPackageManager (lookupEntry w.extensions "cli") with
      | some v => simp [hpm2]
      | none =>
        simp only [hpm2, hgw]
        cases gw with
        | some g =>
          cases hpm3 : getPackageManager (lookupEntry g.extensions "cli") <;> simp [hpm3]
        | none => simp

/-- A local workspace whose root cli extension picks `yarn` and whose only
project has no cli extension. -/
def wsLocalYarn : AngularWorkspace :=
  { basePath := "/w", extensions := [("cli", .obj [("packageManager", .str "yarn")])],
    projects := [("app", ⟨"a", []⟩)] }

/-- A global document whose cli extension picks `pnpm`. -/
def wsGlobalPnpm : AngularWorkspace :=
  { basePath := "/home/u", extensions := [("cli", .obj [("packageManager", .str "pnpm")])],
    projects := [] }

/-- A cache with both scopes resolved to the two documents above. -/
def stC4 : CacheState :=
  { localCache := some (some wsLocalYarn), globalCache := some (some wsGlobalPnpm) }

/-- Claim C4, witness: the workspace-scope `yarn` overrides the global
`pnpm`. -/
theorem c4_witness :
    getConfiguredPackageManager envFreshHome stC4 = .ok (some "yarn", stC4) :=
  (c4_thm envFreshHome stC4 (some wsLocalYarn) (some wsGlobalPnpm) rfl rfl
    (by decide)).trans rfl

/-! ## Claim C5: schematic default merging -/

theorem lookupEntry_eq_none_of_not_mem {α : Type} (l : List (String × α)) (k : String)
    (h : k ∉ l.map Prod.fst) :
    lookupEntry l k = none := by
  induction l with
  | nil => rfl
  | cons kv rest ih =>
    obtain ⟨k0, v0⟩ := kv
    simp only [List.map_cons, List.mem_cons] at h
    push_neg at h
    obtain ⟨h1, h2⟩ := h
    simp only [lookupEntry, if_neg (fun he : k0 = k => h1 he.symm)]
    exact ih h2

theorem lookupEntry_foldl_setEntry {α : Type} (o : List (String × α)) (t : List (String × α))
    (k : String) (hnd : (o.map Prod.fst).Nodup) :
    lookupEntry (o.foldl (fun acc kv => setEntry acc kv.1 kv.2) t) k =
      (lookupEntry o k).elim (lookupEntry t k) some := by
  induction o generalizing t with
  | nil => simp [lookupEntry]
  | cons kv rest ih =>
    obtain ⟨k0, v0⟩ := kv
    simp only [List.map_cons, List.nodup_cons] at hnd
    obtain ⟨hk0, hnd2⟩ := hnd
    simp only [List.foldl_cons]
    rw [ih _ hnd2]
    by_cases hk : k0 = k
    · subst hk
      have hnone : lookupEntry rest k0 = none :=
        lookupEntry_eq_none_of_not_mem rest k0 hk0
      simp [lookupEntry, hnone, lookupEntry_setEntry]
    · have hkk : ¬ k = k0 := fun he => hk he.symm
      cases hrk : lookupEntry rest k with
      | some v => simp [lookupEntry, hk, hrk]
      | none =>
        simp [lookupEntry, hk, hrk, lookupEntry_setEntry, hkk]

/-- `Object.assign` over an object source resolves lookups right-biased:
the source's binding wins, the prior target binding is the fallback. -/
theorem lookupEntry_jsAssign_obj (t o : List (String × JsonValue)) (k : String)
    (hnd : (o.map Prod.fst).Nodup) :
    lookupEntry (jsAssign t (some (.obj o))) k =
      (lookupEntry o k).elim (lookupEntry t k) some := by
  show lookupEntry (o.foldl (fun acc kv => setEntry acc kv.1 kv.2) t) k = _
  exact lookupEntry_foldl_setEntry o t k hnd

/-- The options a scope stores under the qualified
`collection:schematic` key, when the scope's `schematics` extension is
an object. -/
def qualifiedOpts (c s : String) (src : Option JsonValue) : Option JsonValue :=
  match src with
  | some (.obj source) => lookupEntry source (c ++ ":" ++ s)
  | _ => none

/-- The options a scope stores under the nested
`schematics[collection][schematic]` form. -/
def nestedOpts (c s : String) (src : Option JsonValue) : Option JsonValue :=
  match src with
  | some (.obj source) =>
    (match lookupEntry source c with
     | some (.obj co) => lookupEntry co s
     | _ => none)
  | _ => none

/-- A possibly-absent option value is a usable options object: absent,
or an object with distinct keys. -/
def IsOptObj : Option JsonValue → Prop
  | none => True
  | some (.obj o) => (o.map Prod.fst).Nodup
  | some _ => False

instance instDecidableIsOptObj (o : Option JsonValue) : Decidable (IsOptObj o) :=
  match o with
  | none => isTrue trivial
  | some .null => isFalse (fun h => h)
  | some (.bool _) => isFalse (fun h => h)
  | some (.num _) => isFalse (fun h => h)
  | some (.str _) => isFalse (fun h => h)
  | some (.arr _) => isFalse (fun h => h)
  | some (.obj o2) => inferInstanceAs (Decidable ((o2.map Prod.fst).Nodup))

/-- Lookup in a possibly-absent options object. -/
def optLookup (o : Option JsonValue) (k : String) : Option JsonValue :=
  match o with
  | some (.obj l) => lookupEntry l k
  | _ => none

/-- The first lookup result when defined, else the second: per key, the
override of a later (narrower) merge over an earlier (wider) one. -/
def orOpt (x y : Option JsonValue) : Option JsonValue :=
  match x with
  | some v => some v
  | none => y

theorem orOpt_none_right (x : Option JsonValue) : orOpt x none = x := by
  cases x <;> rfl

/-- `workspace?.extensions['schematics']` for an optional workspace
document: the scope's schematics source. -/
def schemSource (ow : Option AngularWorkspace) : Option JsonValue :=
  ow.bind (fun w => lookupEntry w.extensions "schematics")

/-- `workspace.projects.get(project)?.extensions['schematics']` for an
optional workspace document: the project scope's schematics source. -/
def projSource (ow : Option AngularWorkspace) (pn : String) : Option JsonValue :=
  ow.bind (fun w => projectSchematics w pn)


theorem lookupEntry_jsAssign_obj2 (t o : List (String × JsonValue)) (k : String)
    (hnd : (o.map Prod.fst).Nodup) :
    lookupEntry (jsAssign t (some (.obj o))) k =
      orOpt (lookupEntry o k) (lookupEntry t k) := by
  rw [lookupEntry_jsAssign_obj t o k hnd]
  cases lookupEntry o k <;> rfl

/-- A workspace document has no `schematics` extension entry here. -/
theorem jsAssign_none (t : List (String × JsonValue)) : jsAssign t none = t := rfl

/-- Per-key effect of assigning a scope's qualified
`collection:schematic` options: the qualified binding wins over the
accumulated result. -/
theorem lookupEntry_assign_qualified (c s : String) (r : List (String × JsonValue))
    (source : List (String × JsonValue))
    (hq : IsOptObj (qualifiedOpts c s (some (.obj source)))) (k : String) :
    lookupEntry (jsAssign r (lookupEntry source (c ++ ":" ++ s))) k =
      orOpt (optLookup (qualifiedOpts c s (some (.obj source))) k) (lookupEntry r k) := by
  have hq2 : IsOptObj (lookupEntry source (c ++ ":" ++ s)) := hq
  cases hq1 : lookupEntry source (c ++ ":" ++ s) with
  | none => simp [qualifiedOpts, hq1, jsAssign_none, optLookup, orOpt]
  | some qv =>
    rw [hq1] at hq2
    cases qv with
    | obj q =>
      rw [lookupEntry_jsAssign_obj2 r q k (hq2 : (q.map Prod.fst).Nodup)]
      simp [qualifiedOpts, hq1, optLookup]
    | null => exact (hq2 : False).elim
    | bool b => exact (hq2 : False).elim
    | num n => exact (hq2 : False).elim
    | str s2 => exact (hq2 : False).elim
    | arr xs => exact (hq2 : False).elim

/-- Per-key effect of one scope's `mergeOptions` pass: the scope's
nested-form binding wins, then its qualified-form binding, then the
accumulated result from wider scopes; a scope whose forms are absent
leaves the result untouched. -/
theorem lookupEntry_mergeOptions (c s : String) (r : List (String × JsonValue))
    (src : Option JsonValue)
    (hq : IsOptObj (qualifiedOpts c s src)) (hn : IsOptObj (nestedOpts c s src))
    (k : String) :
    lookupEntry (mergeOptions c s r src) k =
      orOpt (optLookup (nestedOpts c s src) k)
        (orOpt (optLookup (qualifiedOpts c s src) k) (lookupEntry r k)) := by
  cases src with
  | none => simp [mergeOptions, qualifiedOpts, nestedOpts, optLookup, orOpt]
  | some v =>
    cases v with
    | obj source =>
      cases hn1 : lookupEntry source c with
      | none =>
        simp only [mergeOptions, hn1]
        rw [lookupEntry_assign_qualified c s r source hq k]
        simp [nestedOpts, hn1, optLookup, orOpt]
      | some cv =>
        cases cv with
        | obj co =>
          cases hn2 : lookupEntry co s with
          | none =>
            simp only [mergeOptions, hn1, hn2, jsAssign_none]
            rw [lookupEntry_assign_qualified c s r source hq k]
            simp [nestedOpts, hn1, hn2, optLookup, orOpt]
          | some nv =>
            have hn2a : IsOptObj (lookupEntry co s) := by
              simpa [nestedOpts, hn1] using hn
            rw [hn2] at hn2a
            cases nv with
            | obj n =>
              simp only [mergeOptions, hn1, hn2]
              rw [lookupEntry_jsAssign_obj2 _ n k (hn2a : (n.map Prod.fst).Nodup),
                lookupEntry_assign_qualified c s r source hq k]
              simp [nestedOpts, hn1, hn2, optLookup]
            | null => exact (hn2a : False).elim
            | bool b => exact (hn2a : False).elim
            | num m => exact (hn2a : False).elim
            | str s2 => exact (hn2a : False).elim
            | arr xs => exact (hn2a : False).elim
        | null =>
          simp only [mergeOptions, hn1]
          rw [lookupEntry_assign_qualified c s r source hq k]
          simp [nestedOpts, hn1, optLookup, orOpt]
        | bool b =>
          simp only [mergeOptions, hn1]
          rw [lookupEntry_assign_qualified c s r source hq k]
          simp [nestedOpts, hn1, optLookup, orOpt]
        | num m =>
          simp only [mergeOptions, hn1]
          rw [lookupEntry_assign_qualified c s r source hq k]
          simp [nestedOpts, hn1, optLookup, orOpt]
        | str s2 =>
          simp only [mergeOptions, hn1]
          rw [lookupEntry_assign_qualified c s r source hq k]
          simp [nestedOpts, hn1, optLookup, orOpt]
        | arr xs =>
          simp only [mergeOptions, hn1]
          rw [lookupEntry_assign_qualified c s r source hq k]
          simp [nestedOpts, hn1, optLookup, orOpt]
    | null => simp [mergeOptions, qualifiedOpts, nestedOpts, optLookup, orOpt]
    | bool b => simp [mergeOptions, qualifiedOpts, nestedOpts, optLookup, orOpt]
    | num m => simp [mergeOptions, qualifiedOpts, nestedOpts, optLookup, orOpt]
    | str s2 => simp [mergeOptions, qualifiedOpts, nestedOpts, optLookup, orOpt]
    | arr xs => simp [mergeOptions, qualifiedOpts, nestedOpts, optLookup, orOpt]

/-- The claim's per-key merge rule, stated from its words: each scope
contributes the options under its qualified `collection:schematic` key
and under its nested `schematics[collection][schematic]` form; the
scopes apply in order global, workspace, project, keys from narrower
scopes overriding those from wider ones (within a scope the nested form
is merged after the qualified form, as the source does). -/
def mergedLookup (c s : String) (gw lw : Option AngularWorkspace) (pn : String)
    (k : String) : Option JsonValue :=
  orOpt (optLookup (nestedOpts c s (projSource lw pn)) k)
    (orOpt (optLookup (qualifiedOpts c s (projSource lw pn)) k)
      (orOpt (optLookup (nestedOpts c s (schemSource lw)) k)
        (orOpt (optLookup (qualifiedOpts c s (schemSource lw)) k)
          (orOpt (optLookup (nestedOpts c s (schemSource gw)) k)
            (optLookup (qualifiedOpts c s (schemSource gw)) k)))))

theorem eq_nil_of_lookupEntry_none {α : Type} (l : List (String × α))
    (h : ∀ k, lookupEntry l k = none) : l = [] := by
  cases l with
  | nil => rfl
  | cons kv rest =>
    have hh := h kv.1
    simp [lookupEntry] at hh

/-- Claim C5.  With the two scopes cached — each to any document or to
the resolved absence — and an explicitly selected project, every key of
the object returned by `getSchematicDefaults` resolves through the
claim's merge rule: both the qualified `collection:schematic` form and
the nested `schematics[collection][schematic]` form of every scope are
merged, in scope order global, workspace, project, keys from narrower
scopes overriding those from wider ones; the result is a plain object by
type, it is the empty object when no scope defines any matching option,
and the cache is left unchanged.  The option values in play are required
to be well-formed option objects (absent, or objects with distinct
keys). -/
theorem c5_thm (collection schematic pn : String) (env : SystemEnv) (st : CacheState)
    (gw lw : Option AngularWorkspace)
    (res : List (String × JsonValue)) (st2 : CacheState)
    (h1 : st.get .globalLevel = some gw)
    (h2 : st.get .localLevel = some lw)
    (hpn : ¬ pn = "")
    (hGq : IsOptObj (qualifiedOpts collection schematic (schemSource gw)))
    (hGn : IsOptObj (nestedOpts collection schematic (schemSource gw)))
    (hWq : IsOptObj (qualifiedOpts collection schematic (schemSource lw)))
    (hWn : IsOptObj (nestedOpts collection schematic (schemSource lw)))
    (hPq : IsOptObj (qualifiedOpts collection schematic (projSource lw pn)))
    (hPn : IsOptObj (nestedOpts collection schematic (projSource lw pn)))
    (hres : getSchematicDefaults collection schematic (some pn) env st = .ok (res, st2)) :
    st2 = st ∧
    (∀ k, lookupEntry res k = mergedLookup collection schematic gw lw pn k) ∧
    ((∀ k, mergedLookup collection schematic gw lw pn k = none) → res = []) := by
  have hgw : getWorkspace .globalLevel env st = .ok (gw, st) := by
    rw [getWorkspace.eq_def, h1]
  have hlw : getWorkspace .localLevel env st = .ok (lw, st) := by
    rw [getWorkspace.eq_def, h2]
  rw [getSchematicDefaults.eq_def] at hres
  simp only [hgw] at hres
  cases lw with
  | none =>
    simp only [hlw, Except.ok.injEq, Prod.mk.injEq] at hres
    obtain ⟨hres1, hres2⟩ := hres
    have hlook : ∀ k, lookupEntry res k =
        mergedLookup collection schematic gw none pn k := by
      intro k
      rw [← hres1]
      show lookupEntry (mergeOptions collection schematic [] (schemSource gw)) k = _
      rw [lookupEntry_mergeOptions collection schematic [] (schemSource gw) hGq hGn k]
      simp only [mergedLookup, projSource, schemSource, Option.none_bind]
      simp only [show nestedOpts collection schematic none = none from rfl,
        show qualifiedOpts collection schematic none = none from rfl,
        show ∀ k2, optLookup none k2 = none from fun k2 => rfl,
        show ∀ y, orOpt none y = y from fun y => rfl,
        show lookupEntry ([] : List (String × JsonValue)) k = none from rfl,
        orOpt_none_right]
    exact ⟨hres2.symm, hlook,
      fun hall => eq_nil_of_lookupEntry_none res (fun k => (hlook k).trans (hall k))⟩
  | some w =>
    simp only [hlw, if_neg hpn, Except.ok.injEq, Prod.mk.injEq] at hres
    obtain ⟨hres1, hres2⟩ := hres
    have hlook : ∀ k, lookupEntry res k =
        mergedLookup collection schematic gw (some w) pn k := by
      intro k
      rw [← hres1]
      show lookupEntry (mergeOptions collection schematic
        (mergeOptions collection schematic
          (mergeOptions collection schematic [] (schemSource gw))
          (schemSource (some w)))
        (projSource (some w) pn)) k = _
      rw [lookupEntry_mergeOptions collection schematic _ (projSource (some w) pn) hPq hPn k,
        lookupEntry_mergeOptions collection schematic _ (schemSource (some w)) hWq hWn k,
        lookupEntry_mergeOptions collection schematic [] (schemSource gw) hGq hGn k]
      simp only [mergedLookup, lookupEntry, orOpt_none_right]
    exact ⟨hres2.symm, hlook,
      fun hall => eq_nil_of_lookupEntry_none res (fun k => (hlook k).trans (hall k))⟩

/-- A local workspace defining `{y: 2}` for the schematic through the
nested `schematics[col][sch]` form at the root, and `{x: 3}` through the
qualified `col:sch` key on its project. -/
def wsSchemLocal : AngularWorkspace :=
  { basePath := "/w",
    extensions := [("schematics", .obj [("col", .obj [("sch", .obj [("y", .num 2)])])])],
    projects := [("app",
      ⟨"a", [("schematics", .obj [("col:sch", .obj [("x", .num 3)])])]⟩)] }

/-- A global document defining `{x: 1}` for `col:sch` (qualified form). -/
def wsSchemGlobal : AngularWorkspace :=
  { basePath := "/home/u",
    extensions := [("schematics", .obj [("col:sch", .obj [("x", .num 1)])])],
    projects := [] }

/-- A cache with both scopes resolved to the two documents above. -/
def stC5 : CacheState :=
  { localCache := some (some wsSchemLocal), globalCache := some (some wsSchemGlobal) }

/-- A local workspace without any schematic options. -/
def wsPlain : AngularWorkspace :=
  { basePath := "/w", extensions := [], projects := [("app", ⟨"a", []⟩)] }

/-- A cache with the local scope resolved to the optionless workspace and
the global scope resolved to the absence of a document. -/
def stC5empty : CacheState :=
  { localCache := some (some wsPlain), globalCache := some none }

/-- Claim C5, witness.  Global qualified `{x:1}`, workspace nested
`{y:2}`, project qualified `{x:3}` merge to `{x:3, y:2}` — exercising
both the qualified and the nested form — and looking nothing up in any
scope yields the empty object. -/
theorem c5_witness :
    (getSchematicDefaults "col" "sch" (some "app") envFreshHome stC5 =
      .ok ([("x", .num 3), ("y", .num 2)], stC5) ∧
     lookupEntry [("x", JsonValue.num 3), ("y", JsonValue.num 2)] "x" =
       some (JsonValue.num 3) ∧
     lookupEntry [("x", JsonValue.num 3), ("y", JsonValue.num 2)] "y" =
       some (JsonValue.num 2)) ∧
    (getSchematicDefaults "col" "sch" (some "app") envFreshHome stC5empty =
      .ok ([], stC5empty) ∧
     lookupEntry ([] : List (String × JsonValue)) "x" = none) := by
  have hA := c5_thm "col" "sch" "app" envFreshHome stC5
    (some wsSchemGlobal) (some wsSchemLocal)
    [("x", .num 3), ("y", .num 2)] stC5
    rfl rfl (by decide) (by decide) (by decide) (by decide) (by decide)
    (by decide) (by decide) rfl
  have hB := c5_thm "col" "sch" "app" envFreshHome stC5empty
    none (some wsPlain) [] stC5empty
    rfl rfl (by decide) (by decide) (by decide) (by decide) (by decide)
    (by decide) (by decide) rfl
  exact ⟨⟨rfl, (hA.2.1 "x").trans rfl, (hA.2.1 "y").trans rfl⟩,
    ⟨rfl, (hB.2.1 "x").trans rfl⟩⟩


end AngularConfig
